import Mathlib

/-!
Verification of the TeachAssist grade-extraction pipeline
(`src/pages/api/getCourses.ts`).

The development shallowly embeds the string-processing core of the
handler.  JavaScript strings are Lean `String`s (operated on as
`List Char`), JavaScript numbers produced by `parseFloat` are modelled
as exact decimal fractions (`none` standing for `NaN`), and code that
can throw a `TypeError` (indexing `undefined`) returns `Option`, `none`
standing for the thrown exception that the surrounding `try`/`catch`
observes.

JavaScript string primitives are reimplemented on `List Char`:
`String.prototype.includes`, `split` (non-empty separator, leftmost
non-overlapping matches), `replace` (first occurrence), `replaceAll`
with single-character patterns, and `trim`.
-/

namespace TeachAssist

/-- Test that `pat` is a prefix of `l`; model of a JavaScript string
starting with `pat`. -/
def begWith : List Char → List Char → Bool
  | [], _ => true
  | _ :: _, [] => false
  | a :: as, b :: bs => a == b && begWith as bs

/-- Test that `pat` occurs as a contiguous substring of `l`; model of
JavaScript `l.includes(pat)`. -/
def hasSub (pat : List Char) : List Char → Bool
  | [] => pat.isEmpty
  | c :: t => begWith pat (c :: t) || hasSub pat t

/-- Model of JavaScript `s.includes(sub)`. -/
def jsIncludes (s sub : String) : Bool := hasSub sub.toList s.toList

/-- Fuelled worker for `split`: scans left to right, breaking at each
leftmost non-overlapping occurrence of `sep`.  `fuel` only serves
structural termination; it is always called with `fuel ≥ l.length`. -/
def splitGo (sep : List Char) : Nat → List Char → List Char → List (List Char)
  | _, [], acc => [acc.reverse]
  | 0, l, acc => [acc.reverse ++ l]
  | fuel + 1, c :: rest, acc =>
    if begWith sep (c :: rest) then
      acc.reverse :: splitGo sep fuel (List.drop sep.length (c :: rest)) []
    else
      splitGo sep fuel rest (c :: acc)

/-- JavaScript `l.split(sep)` on character lists; only used with
non-empty separators (the `[]` case is a stub matching no call site in
the source). -/
def jsSplitL (sep l : List Char) : List (List Char) :=
  match sep with
  | [] => [l]
  | _ :: _ => splitGo sep (l.length + 1) l []

/-- Model of JavaScript `s.split(sep)` for a non-empty literal `sep`. -/
def jsSplit (s sep : String) : List String :=
  (jsSplitL sep.toList s.toList).map (fun l => ⟨l⟩)

/-- Whitespace removed by JavaScript `trim` (space, tab and line
terminators; the exotic Unicode space classes do not occur in the
portal markup). -/
def trimWS (c : Char) : Bool :=
  c == ' ' || c == '\t' || c == '\n' || c == '\r' || c == '\x0b' || c == '\x0c'

/-- Model of JavaScript `s.trim()`: drops leading and trailing
whitespace. -/
def jsTrim (s : String) : String :=
  ⟨((s.toList.dropWhile trimWS).reverse.dropWhile trimWS).reverse⟩

/-- Model of `s.replaceAll(" ", "")`: removes every space character. -/
def jsRemoveSpaces (s : String) : String := ⟨s.toList.filter (fun c => c != ' ')⟩

/-- Model of `s.replaceAll("\t", "")`: removes every tab character. -/
def stripTabs (s : String) : String := ⟨s.toList.filter (fun c => c != '\t')⟩

/-- Model of JavaScript `s.replace(pat, repl)`: replaces the first
occurrence of `pat` only (as the source does for `"Block: P"` and
`"%"`). -/
def jsReplaceFirst (s pat repl : String) : String :=
  match jsSplit s pat with
  | [] => s
  | [_] => s
  | a :: rest => a ++ repl ++ String.intercalate pat rest

/-- JavaScript string truthiness: `s || d` yields `d` for empty `s`. -/
def jsOr (s d : String) : String := if s.length = 0 then d else s

/-- Numeric value of a digit run (most significant first). -/
def digitsVal (l : List Char) : Nat := l.foldl (fun a c => a * 10 + (c.toNat - 48)) 0

/-- Exponent part of a JavaScript float literal: an invalid exponent
suffix is ignored (contributes 0), as `parseFloat` backtracks over it. -/
def expVal : List Char → Int
  | '+' :: u => if (u.headD 'x').isDigit then (digitsVal (u.takeWhile Char.isDigit) : Int) else 0
  | '-' :: u => if (u.headD 'x').isDigit then -(digitsVal (u.takeWhile Char.isDigit) : Int) else 0
  | u => if (u.headD 'x').isDigit then (digitsVal (u.takeWhile Char.isDigit) : Int) else 0

/-- Whitespace skipped by `parseFloat`. -/
def jsWhitespace (c : Char) : Bool :=
  c == ' ' || c == '\t' || c == '\n' || c == '\r' || c == '\x0b' || c == '\x0c'

/-- Exact decimal fraction `n / d` (`d` a positive power of ten by
construction): the value a JavaScript number holds after `parseFloat`.
The source never computes with marks — it only parses and emits them —
so the exact decimal value is the faithful observable and binary
floating-point rounding need not be modelled. -/
structure Dec where
  n : Int
  d : Nat
deriving DecidableEq, Repr

/-- Rational value of a `Dec` (spec-side reading of the fraction). -/
def Dec.toRat (x : Dec) : ℚ := (x.n : ℚ) / (x.d : ℚ)

/-- A JavaScript number that may be `NaN` (`none`). -/
abbrev JSNum := Option Dec

/-- Model of JavaScript `parseFloat`: longest valid decimal prefix
(optional sign, digits, optional fraction, optional exponent); `none`
models `NaN`.  (`"Infinity"` literals, absent from portal markup, are
not modelled and map to `none`.) -/
def jsParseFloat (s : String) : JSNum :=
  let l := s.toList.dropWhile jsWhitespace
  let sgn : Int := match l with | '-' :: _ => -1 | _ => 1
  let l1 : List Char := match l with | '-' :: t => t | '+' :: t => t | _ => l
  let ip := l1.takeWhile Char.isDigit
  let r1 := l1.dropWhile Char.isDigit
  let fp : List Char := match r1 with | '.' :: t => t.takeWhile Char.isDigit | _ => []
  let r2 : List Char := match r1 with | '.' :: t => t.dropWhile Char.isDigit | _ => r1
  if ip.isEmpty && fp.isEmpty then none
  else
    let den := 10 ^ fp.length
    let baseN : Int := sgn * ((digitsVal ip * den + digitsVal fp : Nat) : Int)
    let expo : Int := match r2 with
      | 'e' :: t => expVal t
      | 'E' :: t => expVal t
      | _ => 0
    if 0 ≤ expo then some ⟨baseN * 10 ^ expo.toNat, den⟩
    else some ⟨baseN, den * 10 ^ (-expo).toNat⟩

/-- The `overall_mark` value: a number (possibly `NaN`) or the `"N/A"`
sentinel string, mirroring the TypeScript union `number | "N/A"`. -/
inductive MarkVal
  | na
  | num (v : JSNum)
deriving DecidableEq, Repr

/-- Result record of `parseOverallMark`. -/
structure OMark where
  mark : MarkVal
  isFinal : Bool
  isMidterm : Bool
deriving DecidableEq, Repr

/-- Model of `parseOverallMark` (getCourses.ts lines 64–82).  `none`
models the `TypeError` thrown when `mark.split(tok)[1]` is `undefined`
(pattern word present but its full token absent). -/
def parseOverallMark (mark0 : String) : Option OMark :=
  let mark := jsRemoveSpaces mark0
  if jsIncludes mark "FINAL" then
    match (jsSplit mark "FINALMARK:").get? 1 with
    | none => none
    | some seg => some ⟨MarkVal.num (jsParseFloat ((jsSplit seg "%").headD "")), true, false⟩
  else if jsIncludes mark "currentmark" then
    match (jsSplit mark "currentmark=").get? 1 with
    | none => none
    | some seg => some ⟨MarkVal.num (jsParseFloat ((jsSplit seg "%").headD "")), false, false⟩
  else if jsIncludes mark "MIDTERM" then
    match (jsSplit mark "MIDTERMMARK:").get? 1 with
    | none => none
    | some seg => some ⟨MarkVal.num (jsParseFloat ((jsSplit seg "%").headD "")), false, true⟩
  else some ⟨MarkVal.na, false, false⟩

/-- Which branch of `parseOverallMark`'s pattern cascade fires (same
conditions, in the same order, as the source's `if`/`else if` chain). -/
inductive OMBranch
  | finalB
  | currentB
  | midtermB
  | defaultB
deriving DecidableEq, Repr

/-- Branch selector of `parseOverallMark`. -/
def parseOverallMarkBranch (mark0 : String) : OMBranch :=
  let mark := jsRemoveSpaces mark0
  if jsIncludes mark "FINAL" then OMBranch.finalB
  else if jsIncludes mark "currentmark" then OMBranch.currentB
  else if jsIncludes mark "MIDTERM" then OMBranch.midtermB
  else OMBranch.defaultB

/-- The number text the FINAL branch extracts: between the first
occurrence of `tok` and the next `%`. -/
def extractNum (s tok : String) : String :=
  (jsSplit ((jsSplit s tok).getD 1 "") "%").headD ""

/-- The six fixed category codes of the assignment and weight tables. -/
inductive Cat
  | KU
  | A
  | T
  | C
  | O
  | F
deriving DecidableEq, Repr

/-- The fixed iteration order of the six categories in both `forEach`
loops of the source. -/
def catList : List Cat := [Cat.KU, Cat.A, Cat.T, Cat.C, Cat.O, Cat.F]

/-- A per-category mark cell (`interface Mark`). -/
structure Mark where
  get : JSNum
  total : JSNum
  weight : JSNum
  finished : Bool
deriving DecidableEq, Repr

/-- The zero-valued placeholder stored when a category cell fails to
parse. -/
def zeroMark : Mark := ⟨some ⟨0, 1⟩, some ⟨0, 1⟩, some ⟨0, 1⟩, true⟩

/-- An assignment record (`interface Assignment`): optional feedback and
six optional category-mark lists. -/
structure Assignment where
  name : String
  feedback : Option String := none
  KU : Option (List Mark) := none
  A : Option (List Mark) := none
  T : Option (List Mark) := none
  C : Option (List Mark) := none
  O : Option (List Mark) := none
  F : Option (List Mark) := none
deriving DecidableEq, Repr

/-- Category-mark field read, modelling `assignment[key]`. -/
def catGet (a : Assignment) : Cat → Option (List Mark)
  | Cat.KU => a.KU
  | Cat.A => a.A
  | Cat.T => a.T
  | Cat.C => a.C
  | Cat.O => a.O
  | Cat.F => a.F

/-- Category-mark field write, modelling `assignment[key] = v`. -/
def setCat (a : Assignment) (c : Cat) (v : List Mark) : Assignment :=
  match c with
  | Cat.KU => { a with KU := some v }
  | Cat.A => { a with A := some v }
  | Cat.T => { a with T := some v }
  | Cat.C => { a with C := some v }
  | Cat.O => { a with O := some v }
  | Cat.F => { a with F := some v }

/-- A `<tr>` of the assignment table as the source observes it: the
row's full text (used for feedback rows), the text of its
`td[rowspan="2"]` cell, and for each category the text of the cell
whose `bgcolor` matches that category's colour (`""` when cheerio finds
no such cell, since `.text()` of an empty selection is `""`). -/
structure ARow where
  text : String
  span2 : String
  cKU : String := ""
  cA : String := ""
  cT : String := ""
  cC : String := ""
  cO : String := ""
  cF : String := ""
deriving DecidableEq, Repr

/-- The colour-matched cell text of a row for a category. -/
def ARow.cell (r : ARow) : Cat → String
  | Cat.KU => r.cKU
  | Cat.A => r.cA
  | Cat.T => r.cT
  | Cat.C => r.cC
  | Cat.O => r.cO
  | Cat.F => r.cF

/-- The body of the per-category `try` block (getCourses.ts lines
196–202): positional split of the cell text, `none` when an
out-of-range index makes `.split` throw.  The input is the cell text
after `replaceAll("\t","")` and `trim()`. -/
def parseCategoryCellCore (category : String) : Option Mark :=
  match (jsSplit category " / ").get? 1 with
  | none => none
  | some seg1 =>
    match (jsSplit category "weight=").get? 1 with
    | none => none
    | some wseg =>
      some
        { get := jsParseFloat ((jsSplit category " / ").headD "")
          total := jsParseFloat ((jsSplit seg1 " = ").headD "")
          weight := jsParseFloat ((jsSplit wseg "\n").headD "")
          finished := !(jsIncludes category "finished") }

/-- The per-category `try`/`catch`: a parse failure substitutes the
zero-valued, marked-finished placeholder (line 204). -/
def parseCategoryCell (category : String) : Mark :=
  match parseCategoryCellCore category with
  | some m => m
  | none => zeroMark

/-- One step of the six-category `forEach` (lines 190–207): a category
field is written only when the colour-matched cell text is non-empty
after tab-stripping and trimming. -/
def applyCat (r : ARow) (a : Assignment) (c : Cat) : Assignment :=
  let category := jsTrim (stripTabs (r.cell c))
  if category.length = 0 then a
  else setCat a c [parseCategoryCell category]

/-- Builds the assignment emitted for an odd-counter row (lines
187–207): name from the row-span-2 cell, then the six category cells. -/
def mkAssignment (r : ARow) : Assignment :=
  catList.foldl (applyCat r) { name := stripTabs r.span2 }

/-- What a single category cell contributes, as a standalone function
(used to state that other categories are unaffected by one cell's
failure). -/
def catResult (raw : String) : Option (List Mark) :=
  let category := jsTrim (stripTabs raw)
  if category.length = 0 then none else some [parseCategoryCell category]

/-- The assignment-table row loop (lines 176–209).  `counter` starts at
1 and is incremented before each row is examined; even counters are
feedback rows (on the very first row, counter 2, nothing is attached),
odd counters emit assignments.  `none` models the `TypeError` thrown by
`assignments[assignments.length - 1].feedback = …` on an empty array
(proved unreachable below). -/
def runAssignRows : Nat → List ARow → List Assignment → Option (List Assignment)
  | _, [], acc => some acc.reverse
  | counter, r :: rest, acc =>
    let c := counter + 1
    if c % 2 = 0 then
      if 2 < c then
        match acc with
        | [] => none
        | a :: as => runAssignRows c rest ({ a with feedback := some (jsTrim r.text) } :: as)
      else runAssignRows c rest acc
    else runAssignRows c rest (mkAssignment r :: acc)

/-- Assignment-table parse of a course detail page. -/
def parseAssignments (rows : List ARow) : Option (List Assignment) :=
  runAssignRows 1 rows []

/-- Specification-level pairing: after dropping the first visited row,
rows come in (assignment, feedback) pairs, a trailing unpaired row
yielding an assignment without feedback. -/
def pairUp : List ARow → List Assignment
  | [] => []
  | [r] => [mkAssignment r]
  | r :: f :: rest => { mkAssignment r with feedback := some (jsTrim f.text) } :: pairUp rest

/-- A weight-table row triple `{W, CW, SA}`. -/
structure WEntry where
  W : JSNum
  CW : JSNum
  SA : JSNum
deriving DecidableEq, Repr

/-- Reads the three weight values starting at `index` (lines 226–230);
`none` models the `TypeError` thrown when `weights[i]` is `undefined`
(caught by the surrounding `try`). -/
def triple (index : Nat) (ws : List String) : Option WEntry :=
  match ws.get? index, ws.get? (index + 1), ws.get? (index + 2) with
  | some a, some b, some c =>
    some
      { W := jsParseFloat (jsReplaceFirst a "%" "")
        CW := jsParseFloat (jsReplaceFirst b "%" "")
        SA := jsParseFloat (jsReplaceFirst c "%" "") }
  | _, _, _ => none

/-- Per-category weight parse (lines 220–233): if the first collected
value contains `"Final"` it is forced to `"0%"` and the triple starts
at index 0, else at index 1; any throw is caught and the category is
skipped. -/
def weightEntry (weights : List String) : Option WEntry :=
  match weights with
  | [] => triple 1 []
  | w0 :: rest =>
    if jsIncludes w0 "Final" then triple 0 ("0%" :: rest)
    else triple 1 (w0 :: rest)

/-- The weight-table `forEach` (lines 211–234): categories are visited
in the fixed order and inserted into the object in that order; failed
categories are simply absent.  `cells c` is the flat list of trimmed
child-cell texts of the rows whose `bgcolor` matches category `c`'s
colour. -/
def weightTable (cells : Cat → List String) : List (Cat × WEntry) :=
  catList.filterMap (fun c => (weightEntry (cells c)).map (fun e => (c, e)))

/-- Key read on the association-list weight table, modelling
`weight_table[key]` on the string-keyed object. -/
def wtLookup (wt : List (Cat × WEntry)) (c : Cat) : Option WEntry :=
  match wt with
  | [] => none
  | (k, e) :: rest => if k = c then some e else wtLookup rest c

/-- A course record (`interface Course`); `weight_table` is an
insertion-ordered association list, mirroring the string-keyed object. -/
structure Course where
  code : String
  name : String
  block : String
  room : String
  start_time : String
  end_time : String
  dropped_time : String
  overall_mark : MarkVal
  isFinal : Bool
  isMidterm : Bool
  link : Option String
  assignments : List Assignment
  weight_table : List (Cat × WEntry)
deriving DecidableEq, Repr

/-- JavaScript truthiness of `overall.mark`: the string `"N/A"` is
truthy, `NaN` and `0` are falsy. -/
def markTruthy : MarkVal → Bool
  | MarkVal.na => true
  | MarkVal.num none => false
  | MarkVal.num (some v) => decide (v.n ≠ 0)

/-- Model of `overall.mark || "N/A"` (line 148). -/
def markOrNA (m : MarkVal) : MarkVal := if markTruthy m then m else MarkVal.na

/-- A `<tr>` of the course-list table: its anchor `href` (if any) and
its full text. -/
structure LRow where
  link : Option String
  text : String
deriving DecidableEq, Repr

/-- The compacted line list of a row (lines 126–128): split on `"\n"`,
trim each line, discard empties. -/
def compactLines (text : String) : List String :=
  ((jsSplit text "\n").map jsTrim).filter (fun s => 0 < s.length)

/-- The `end_time`/`dropped_time` split of compacted line 3 (lines
132–139): `none` models the unreachable throw when `"Dropped on"` is
present but `split` misses it. -/
def endDropped (line3 : String) : Option (String × String) :=
  if jsIncludes line3 "Dropped on" then
    match (jsSplit line3 "Dropped on").get? 1 with
    | none => none
    | some after => some (jsTrim ((jsSplit line3 "Dropped").headD ""), jsTrim after)
  else some (jsTrim line3, "")

/-- Field extraction from the compacted line list `f` of a data row
(lines 130–156): applies only when more than 3 non-empty lines remain;
`none` otherwise, or when `parseOverallMark` throws. -/
def buildCourse (link : Option String) (f : List String) : Option Course :=
  if 3 < f.length then
    match parseOverallMark (jsOr (f.getD 4 "") "") with
    | none => none
    | some overall =>
      match endDropped (f.getD 3 "") with
      | none => none
      | some (e, d) =>
        some
          { code := jsOr ((jsSplit (f.getD 0 "") " : ").headD "") "Unknown Code"
            name := jsOr ((jsSplit (f.getD 0 "") " : ").getD 1 "") "Unknown Course"
            block := jsOr ((jsSplit (jsReplaceFirst (f.getD 1 "") "Block: P" "") " ").headD "") "N/A"
            room := jsOr ((jsSplit (f.getD 1 "") "rm. ").getD 1 "") "Unknown Room"
            start_time := jsOr ((jsSplit (f.getD 2 "") " ").headD "") ""
            end_time := e
            dropped_time := d
            overall_mark := markOrNA overall.mark
            isFinal := overall.isFinal
            isMidterm := overall.isMidterm
            link := link
            assignments := []
            weight_table := [] }
  else none

/-- Per-row course extraction (lines 122–160).  `none` covers every way
a row yields no course: `courseText[1]` is `undefined` (the `.includes`
call throws, caught by the row-level `catch`), the row is the
`"Course Name"` header, the compacted list has 3 or fewer lines, or
`parseOverallMark` throws. -/
def parseRow (link : Option String) (text : String) : Option Course :=
  match (jsSplit text "\n").get? 1 with
  | none => none
  | some second =>
    if jsIncludes second "Course Name" then none
    else buildCourse link (compactLines text)

/-- Course-list extraction over all rows of the results container: a
row-level failure omits that row only. -/
def extractCourses (rows : List LRow) : List Course :=
  rows.filterMap (fun r => parseRow r.link r.text)

/-- The post-login page as the handler observes it: the raw text it
inspects for markers, and the course-list table rows cheerio selects
from the same markup. -/
structure ListPage where
  text : String
  rows : List LRow

/-- Outcome of the login phase (lines 110–120): an HTTP error response,
or the authenticated page parsed as the course list. -/
inductive LoginOutcome
  | httpError (status : Nat) (msg : String)
  | courseList (cs : List Course)

/-- Marker inspection of the login response (lines 110–116) followed by
course-list extraction (lines 118–162). -/
def loginPhase (p : ListPage) : LoginOutcome :=
  if jsIncludes p.text "Invalid Login" then LoginOutcome.httpError 401 "Invalid Login"
  else if jsIncludes p.text "Access Denied" then LoginOutcome.httpError 403 "Access Denied"
  else if jsIncludes p.text "Session Expired" then LoginOutcome.httpError 401 "Session Expired"
  else LoginOutcome.courseList (extractCourses p.rows)

/-- Base path of the per-student course endpoint. -/
def studentsBase : String := "https://ta.yrdsb.ca/live/students/"

/-- Model of `courses[i].link as string` in string concatenation:
JavaScript coerces `undefined` to the string `"undefined"`. -/
def jsCoerceLink : Option String → String
  | some s => s
  | none => "undefined"

/-- Truthiness of `course.link` (`undefined` and `""` are falsy). -/
def linkTruthy : Option String → Bool
  | none => false
  | some s => !s.isEmpty

/-- Detail-page request URLs issued by getCourses.ts (lines 164–172):
one request per course, unconditionally, the missing link coerced to
`"undefined"`. -/
def detailRequests (courses : List Course) : List String :=
  courses.map (fun c => studentsBase ++ jsCoerceLink c.link)

/-- Detail-page request URLs issued by the handler variant in
`src/unnamed/part_000` (lines 173–184), which has
`if (!course.link) continue;`: requests only for truthy links. -/
def detailRequestsSkip (courses : List Course) : List String :=
  (courses.filter (fun c => linkTruthy c.link)).map
    (fun c => studentsBase ++ jsCoerceLink c.link)

/-- A course detail page as the two detail parsers observe it:
assignment-table rows and, per category, the flat list of trimmed
weight-row cell texts. -/
structure DetailDoc where
  assignRows : List ARow
  weightCells : Cat → List String

/-- Both detail parsers on one fetched page (lines 176–237). -/
def processDetail (doc : DetailDoc) : Option (List Assignment × List (Cat × WEntry)) :=
  (parseAssignments doc.assignRows).map (fun as => (as, weightTable doc.weightCells))

/-- Per-course step of the `part_000` detail loop: a falsy link skips
the course, leaving it untouched; otherwise its detail page is fetched
and `assignments`/`weight_table` are replaced. -/
def updateCourseSkip (fetchDoc : String → DetailDoc) (c : Course) : Option Course :=
  if linkTruthy c.link then
    match processDetail (fetchDoc (studentsBase ++ jsCoerceLink c.link)) with
    | some (as, wt) => some { c with assignments := as, weight_table := wt }
    | none => none
  else some c

/-- The sequential `part_000` detail loop over all extracted courses. -/
def detailPhaseSkip (fetchDoc : String → DetailDoc) (courses : List Course) :
    Option (List Course) :=
  courses.mapM (updateCourseSkip fetchDoc)

/-! ### Concrete inputs used by witnesses -/

/-- A well-formed course-list row whose running mark is `0%`. -/
def wText10 : String :=
  "MATH1D : Calculus\nBlock: P3 rm. 203\n8:25 2:40\nJun 20\ncurrent mark = 0%"

/-- The course record extracted from `wText10`. -/
def wCourse10 : Course :=
  { code := "MATH1D", name := "Calculus", block := "3", room := "203"
    start_time := "8:25", end_time := "Jun 20", dropped_time := ""
    overall_mark := MarkVal.na, isFinal := false, isMidterm := false
    link := none, assignments := [], weight_table := [] }

/-- An assignment row whose KU cell text is non-empty but unparsable. -/
def wRowFin : ARow := { text := "", span2 := "Quiz\t1", cKU := "finished" }

/-- Weight cells giving KU two values (too few) and A a full row. -/
def wCells9 : Cat → List String := fun c =>
  match c with
  | Cat.KU => ["10%", "20%"]
  | Cat.A => ["hdr", "70%", "20%", "10%"]
  | _ => []

/-- An extracted course with no detail-page link. -/
def wCourse4 : Course :=
  { code := "X", name := "Y", block := "1", room := "R"
    start_time := "", end_time := "", dropped_time := ""
    overall_mark := MarkVal.na, isFinal := false, isMidterm := false
    link := none, assignments := [], weight_table := [] }

/-- A detail-page oracle returning an empty document. -/
def emptyFetch : String → DetailDoc := fun _ => ⟨[], fun _ => []⟩

/-! ### Lemmas about the string primitives -/

theorem begWith_trans : ∀ (a b l : List Char),
    begWith a b = true → begWith b l = true → begWith a l = true
  | [], _, _, _, _ => rfl
  | _ :: _, [], _, hab, _ => by simp [begWith] at hab
  | _ :: _, _ :: _, [], _, hbl => by simp [begWith] at hbl
  | x :: xs, y :: ys, z :: zs, hab, hbl => by
    simp only [begWith, Bool.and_eq_true, beq_iff_eq] at hab hbl ⊢
    exact ⟨hab.1.trans hbl.1, begWith_trans xs ys zs hab.2 hbl.2⟩

theorem hasSub_mono : ∀ (l a b : List Char),
    begWith a b = true → hasSub b l = true → hasSub a l = true
  | [], a, b, hab, hbl => by
    simp only [hasSub, List.isEmpty_iff] at hbl
    subst hbl
    cases a with
    | nil => rfl
    | cons x xs => simp [begWith] at hab
  | c :: t, a, b, hab, hbl => by
    simp only [hasSub, Bool.or_eq_true] at hbl ⊢
    rcases hbl with hpre | hrest
    · exact Or.inl (begWith_trans a b (c :: t) hab hpre)
    · exact Or.inr (hasSub_mono t a b hab hrest)

theorem splitGo_ne_nil (sep : List Char) :
    ∀ (fuel : Nat) (l acc : List Char), splitGo sep fuel l acc ≠ []
  | _, [], _ => by simp [splitGo]
  | 0, _ :: _, _ => by simp [splitGo]
  | fuel + 1, c :: rest, acc => by
    rw [splitGo]
    split
    · simp
    · exact splitGo_ne_nil sep fuel rest (c :: acc)

theorem splitGo_two (sep : List Char) (hsep : sep ≠ []) :
    ∀ (fuel : Nat) (l acc : List Char), hasSub sep l = true →
      l.length ≤ fuel → 2 ≤ (splitGo sep fuel l acc).length
  | _, [], _, hs, _ => by
    simp only [hasSub, List.isEmpty_iff] at hs
    exact absurd hs hsep
  | 0, c :: rest, _, _, hlen => by simp at hlen
  | fuel + 1, c :: rest, acc, hs, hlen => by
    rw [splitGo]
    split
    · have h1 : 0 < (splitGo sep fuel (List.drop sep.length (c :: rest)) []).length :=
        List.length_pos.mpr (splitGo_ne_nil sep fuel _ _)
      simp only [List.length_cons]
      omega
    · rename_i hpre
      simp only [hasSub, Bool.or_eq_true] at hs
      rcases hs with hp | hr
      · exact absurd hp hpre
      · have hlen2 : rest.length ≤ fuel := by
          simp only [List.length_cons] at hlen
          omega
        exact splitGo_two sep hsep fuel rest (c :: acc) hr hlen2

theorem jsSplit_two (s pat : String) (hinc : jsIncludes s pat = true)
    (hpat : pat.toList ≠ []) : 2 ≤ (jsSplit s pat).length := by
  unfold jsSplit jsSplitL
  rw [List.length_map]
  cases hp : pat.toList with
  | nil => exact absurd hp hpat
  | cons c cs =>
    rw [← hp]
    have : hasSub pat.toList s.toList = true := hinc
    exact hp ▸ (splitGo_two pat.toList hpat (s.toList.length + 1) s.toList []
      this (Nat.le_succ _))

theorem get1_of_two {l : List String} (h : 2 ≤ l.length) :
    l.get? 1 = some (l.getD 1 "") := by
  match l, h with
  | a :: b :: t, _ => rfl

/-! ### Claim C1: final-mark priority -/

/-- Claim C1, counterexample: a mark text containing both `"FINAL"` and
`"currentmark"` (space removal is a no-op here) but lacking the full
token `"FINALMARK:"` makes `parseOverallMark` throw a `TypeError`
(modelled `none`) instead of returning a final mark. -/
theorem claim1_counterexample :
    jsIncludes (jsRemoveSpaces "FINALcurrentmark=50%") "FINAL" = true ∧
    jsIncludes (jsRemoveSpaces "FINALcurrentmark=50%") "currentmark" = true ∧
    parseOverallMark "FINALcurrentmark=50%" = none := by decide

/-- Claim C1, amended: for every mark text that after space removal
contains the full token `"FINALMARK:"` as well as `"currentmark"`,
`parseOverallMark` returns the number extracted between `"FINALMARK:"`
and `"%"` with `isFinal = true` and `isMidterm = false`, and the
`currentmark` pattern is never consulted: the FINAL branch fires. -/
theorem claim1_overall_priority (s : String)
    (hF : jsIncludes (jsRemoveSpaces s) "FINALMARK:" = true)
    (_hC : jsIncludes (jsRemoveSpaces s) "currentmark" = true) :
    parseOverallMark s =
      some ⟨MarkVal.num (jsParseFloat (extractNum (jsRemoveSpaces s) "FINALMARK:")),
        true, false⟩ ∧
    parseOverallMarkBranch s = OMBranch.finalB := by
  have hFi : jsIncludes (jsRemoveSpaces s) "FINAL" = true :=
    hasSub_mono _ _ _ (by decide) hF
  have h2 : 2 ≤ (jsSplit (jsRemoveSpaces s) "FINALMARK:").length :=
    jsSplit_two _ _ hF (by decide)
  have hget := get1_of_two h2
  refine ⟨?_, ?_⟩
  · unfold parseOverallMark
    simp only [hFi, if_true, hget, extractNum]
  · unfold parseOverallMarkBranch
    simp only [hFi, if_true]

/-- Claim C1, witness for the amended theorem at the spec's example
final-mark banner combined with a stale current mark. -/
theorem claim1_witness :
    parseOverallMark "FINAL MARK: 87.5% current mark = 72.3%" =
      some ⟨MarkVal.num (jsParseFloat
        (extractNum (jsRemoveSpaces "FINAL MARK: 87.5% current mark = 72.3%") "FINALMARK:")),
        true, false⟩ ∧
    parseOverallMarkBranch "FINAL MARK: 87.5% current mark = 72.3%" = OMBranch.finalB :=
  claim1_overall_priority _ (by decide) (by decide)

/-! ### Claim C2: fallback sentinel -/

/-- Claim C2, counterexample: on `"FINALx"` the FINAL pattern matches
but the number extraction fails, and `parseOverallMark` throws
(modelled `none`) rather than returning the `"N/A"` sentinel. -/
theorem claim2_counterexample :
    jsIncludes (jsRemoveSpaces "FINALx") "FINAL" = true ∧
    parseOverallMark "FINALx" = none := by decide

/-- Claim C2, amended: for every input string on which none of the
three patterns matches, `parseOverallMark` returns the `"N/A"` sentinel
with both flags false (and does not throw).  When a pattern matches but
its extraction fails the code instead throws (separator token absent)
or returns `NaN` with the branch's flag set. -/
theorem claim2_default_sentinel (s : String)
    (h1 : jsIncludes (jsRemoveSpaces s) "FINAL" = false)
    (h2 : jsIncludes (jsRemoveSpaces s) "currentmark" = false)
    (h3 : jsIncludes (jsRemoveSpaces s) "MIDTERM" = false) :
    parseOverallMark s = some ⟨MarkVal.na, false, false⟩ := by
  unfold parseOverallMark
  simp [h1, h2, h3]

/-- Claim C2, witness: the empty mark text (the spec's own example)
satisfies the amended theorem's hypotheses. -/
theorem claim2_witness : parseOverallMark "" = some ⟨MarkVal.na, false, false⟩ :=
  claim2_default_sentinel "" (by decide) (by decide) (by decide)

/-! ### Claim C3: login-response classification -/

/-- Claim C3: the login response is classified by checking three
markers in this exact order — `"Invalid Login"` wins regardless of the
other markers, then `"Access Denied"`, then `"Session Expired"` — and a
text containing none of the three is treated as authenticated and its
rows are parsed as the course list. -/
theorem claim3_login_markers (p : ListPage) :
    (jsIncludes p.text "Invalid Login" = true →
      loginPhase p = LoginOutcome.httpError 401 "Invalid Login") ∧
    (jsIncludes p.text "Invalid Login" = false →
      jsIncludes p.text "Access Denied" = true →
      loginPhase p = LoginOutcome.httpError 403 "Access Denied") ∧
    (jsIncludes p.text "Invalid Login" = false →
      jsIncludes p.text "Access Denied" = false →
      jsIncludes p.text "Session Expired" = true →
      loginPhase p = LoginOutcome.httpError 401 "Session Expired") ∧
    (jsIncludes p.text "Invalid Login" = false →
      jsIncludes p.text "Access Denied" = false →
      jsIncludes p.text "Session Expired" = false →
      loginPhase p = LoginOutcome.courseList (extractCourses p.rows)) := by
  refine ⟨?_, ?_, ?_, ?_⟩ <;> intros <;> simp_all [loginPhase]

/-- Claim C3, witness: concrete pages exercising all four outcomes (the
first containing two markers, showing `"Invalid Login"` wins). -/
theorem claim3_witness :
    loginPhase ⟨"Invalid Login Access Denied", []⟩ =
      LoginOutcome.httpError 401 "Invalid Login" ∧
    loginPhase ⟨"Access Denied Session Expired", []⟩ =
      LoginOutcome.httpError 403 "Access Denied" ∧
    loginPhase ⟨"Session Expired", []⟩ = LoginOutcome.httpError 401 "Session Expired" ∧
    loginPhase ⟨"welcome", []⟩ = LoginOutcome.courseList (extractCourses []) :=
  ⟨(claim3_login_markers _).1 (by decide),
   (claim3_login_markers _).2.1 (by decide) (by decide),
   (claim3_login_markers _).2.2.1 (by decide) (by decide) (by decide),
   (claim3_login_markers _).2.2.2 (by decide) (by decide) (by decide)⟩

/-! ### Claim C5: short rows are excluded -/

/-- Claim C5: a table row whose compacted line list has 3 or fewer
non-empty lines yields no course, and contributes nothing to the output
sequence. -/
theorem claim5_short_rows (link : Option String) (text : String)
    (h : (compactLines text).length ≤ 3) :
    parseRow link text = none ∧
    ∀ rows : List LRow,
      extractCourses ({ link := link, text := text } :: rows) = extractCourses rows := by
  have hnone : parseRow link text = none := by
    unfold parseRow
    cases hget : (jsSplit text "\n").get? 1 with
    | none => rfl
    | some second =>
      by_cases hcn : jsIncludes second "Course Name" = true
      · simp [hcn]
      · simp only [Bool.not_eq_true] at hcn
        simp only [hcn, Bool.false_eq_true, if_false]
        unfold buildCourse
        rw [if_neg (by omega)]
  refine ⟨hnone, fun rows => ?_⟩
  simp [extractCourses, List.filterMap_cons, hnone]

/-- Claim C5, witness: a two-line row is dropped. -/
theorem claim5_witness :
    parseRow none "a\nb" = none ∧
    extractCourses [{ link := none, text := "a\nb" }] = extractCourses [] :=
  ⟨(claim5_short_rows none "a\nb" (by decide)).1,
   (claim5_short_rows none "a\nb" (by decide)).2 []⟩

/-! ### Claim C10: a parsed mark of 0 becomes the sentinel -/

/-- Claim C10: for a well-formed course-list row whose mark text parses
to the number 0, the assembled course's `overall_mark` is the `"N/A"`
sentinel, because `overall.mark || "N/A"` coerces the falsy 0. -/
theorem claim10_zero_overall_na (link : Option String) (text : String) (c : Course)
    (r : OMark) (v : Dec)
    (hc : parseRow link text = some c)
    (hr : parseOverallMark (jsOr ((compactLines text).getD 4 "") "") = some r)
    (hm : r.mark = MarkVal.num (some v)) (h0 : v.n = 0) :
    c.overall_mark = MarkVal.na := by
  unfold parseRow at hc
  split at hc
  · simp at hc
  · split at hc
    · simp at hc
    · unfold buildCourse at hc
      split at hc
      · split at hc
        · simp at hc
        · rename_i overall heq
          split at hc
          · simp at hc
          · obtain rfl := Option.some.inj hc
            have hov : overall = r := Option.some.inj (heq.symm.trans hr)
            simp [hov, hm, markOrNA, markTruthy, h0]
      · simp at hc

/-- Claim C10, witness: the concrete row `wText10`, whose mark text
`"current mark = 0%"` parses to 0, yields `overall_mark = "N/A"`. -/
theorem claim10_witness : wCourse10.overall_mark = MarkVal.na :=
  claim10_zero_overall_na none wText10 wCourse10
    ⟨MarkVal.num (some ⟨0, 1⟩), false, false⟩ ⟨0, 1⟩
    (by decide) (by decide) rfl rfl

/-! ### Claim C6: assignment/feedback alternation -/

/-- From any even counter `≥ 2` (the state after the skipped first
row), the row loop pairs rows up: the next row emits an assignment, the
one after feeds its feedback. -/
theorem runAssign_even : ∀ (rows : List ARow) (c : Nat) (acc : List Assignment),
    c % 2 = 0 → 2 ≤ c →
    runAssignRows c rows acc = some (acc.reverse ++ pairUp rows)
  | [], c, acc, _, _ => by simp [runAssignRows, pairUp]
  | [r], c, acc, hpar, hge => by
    simp only [runAssignRows]
    rw [if_neg (show ¬((c + 1) % 2 = 0) by omega)]
    simp [pairUp]
  | r :: f :: rest, c, acc, hpar, hge => by
    simp only [runAssignRows]
    rw [if_neg (show ¬((c + 1) % 2 = 0) by omega)]
    rw [if_pos (show (c + 1 + 1) % 2 = 0 by omega)]
    rw [if_pos (show 2 < c + 1 + 1 by omega)]
    rw [runAssign_even rest (c + 1 + 1) _ (by omega) (by omega)]
    simp [pairUp]

/-- Claim C6: rows alternate by the 1-based counter incremented before
each row: the first visited row (counter 2) is skipped and attaches no
feedback, each subsequent odd-counter row emits an assignment, and each
even-counter row sets the previously emitted assignment's feedback to
its trimmed text without creating a new entry — i.e. the loop output is
exactly the pairing `pairUp` of the rows after the first, and the
feedback write never throws. -/
theorem claim6_alternation (rows : List ARow) :
    parseAssignments rows = some (pairUp (List.drop 1 rows)) := by
  cases rows with
  | nil => rfl
  | cons r0 rest =>
    unfold parseAssignments
    simp only [runAssignRows]
    norm_num
    simpa using runAssign_even rest 2 [] (by omega) (by omega)

/-! ### Lemmas about `mkAssignment` -/

theorem catGet_applyCat_ne (r : ARow) (a : Assignment) {c c2 : Cat} (h : c ≠ c2) :
    catGet (applyCat r a c2) c = catGet a c := by
  simp only [applyCat]
  split
  · rfl
  · cases c <;> cases c2 <;> first
      | exact absurd rfl h
      | simp [setCat, catGet]

theorem catGet_applyCat_self (r : ARow) (a : Assignment) (c : Cat) :
    catGet (applyCat r a c) c =
      if (jsTrim (stripTabs (r.cell c))).length = 0 then catGet a c
      else some [parseCategoryCell (jsTrim (stripTabs (r.cell c)))] := by
  simp only [applyCat]
  split
  · rfl
  · cases c <;> simp [setCat, catGet]

theorem name_applyCat (r : ARow) (a : Assignment) (c : Cat) :
    (applyCat r a c).name = a.name := by
  simp only [applyCat]
  split
  · rfl
  · cases c <;> simp [setCat]

theorem feedback_applyCat (r : ARow) (a : Assignment) (c : Cat) :
    (applyCat r a c).feedback = a.feedback := by
  simp only [applyCat]
  split
  · rfl
  · cases c <;> simp [setCat]

theorem catGet_mkInit (r : ARow) (c : Cat) :
    catGet { name := stripTabs r.span2 : Assignment } c = none := by
  cases c <;> rfl

/-- Each category field of an emitted assignment depends only on that
category's own cell. -/
theorem mkAssignment_cat (r : ARow) (c : Cat) :
    catGet (mkAssignment r) c = catResult (r.cell c) := by
  cases c <;>
    simp only [mkAssignment, catList, List.foldl, catGet_applyCat_ne, catGet_applyCat_self,
      catGet_mkInit, catResult, ne_eq, reduceCtorEq, not_false_eq_true]

/-- The name and (absent) feedback of an emitted assignment are
untouched by the category loop. -/
theorem mkAssignment_name (r : ARow) :
    (mkAssignment r).name = stripTabs r.span2 ∧ (mkAssignment r).feedback = none := by
  constructor <;>
    simp only [mkAssignment, catList, List.foldl, name_applyCat, feedback_applyCat]

/-! ### Claim C7: category-cell parsing and the `finished` flag -/

/-- Claim C7, counterexample: the cell text `"finished"` contains the
substring `"finished"`, yet its parse (which hits the `catch` branch,
the text having no `" / "`) yields `finished = true`, refuting the
claimed unconditional equivalence. -/
theorem claim7_counterexample :
    jsIncludes "finished" "finished" = true ∧
    (parseCategoryCell "finished").finished = true := by decide

/-- Claim C7, amended: the example cell parses to
`{get 8, total 10, weight 25, finished true}`; and `finished` is false
exactly when the text contains `"finished"` *among cells whose
positional parse succeeds*, while cells that hit the `catch` branch get
`finished = true` regardless of their text. -/
theorem claim7_category_cell :
    parseCategoryCell "8 / 10 = 80% weight=25%" =
      ⟨some ⟨8, 1⟩, some ⟨10, 1⟩, some ⟨25, 1⟩, true⟩ ∧
    (∀ (s : String) (m : Mark), parseCategoryCellCore s = some m →
      m.finished = !(jsIncludes s "finished")) ∧
    (∀ s : String, parseCategoryCellCore s = none →
      (parseCategoryCell s).finished = true) := by
  refine ⟨by decide, ?_, ?_⟩
  · intro s m h
    unfold parseCategoryCellCore at h
    split at h
    · simp at h
    · split at h
      · simp at h
      · obtain rfl := Option.some.inj h
        rfl
  · intro s h
    unfold parseCategoryCell
    rw [h]
    rfl

/-- Claim C7, witness for the amended theorem: a successfully parsed
cell containing `"finished"` gets `finished = false`, and the
`catch`-path cell `"finished"` gets `finished = true`. -/
theorem claim7_witness :
    (⟨some ⟨1, 1⟩, some ⟨2, 1⟩, some ⟨10, 1⟩, false⟩ : Mark).finished =
      !(jsIncludes "1 / 2 = 50% weight=10%finished" "finished") ∧
    (parseCategoryCell "finished").finished = true :=
  ⟨claim7_category_cell.2.1 "1 / 2 = 50% weight=10%finished" _ (by decide),
   claim7_category_cell.2.2 "finished" (by decide)⟩

/-! ### Claim C8: unparsable non-empty cells get the placeholder -/

/-- Claim C8: when a row's colour-matched cell for category `c` is
non-empty but its positional parse throws, the emitted assignment
carries the zero-valued, marked-finished placeholder for `c` (rather
than omitting the key), keeps its name and absent feedback, and every
other category is parsed from its own cell as usual. -/
theorem claim8_catch_placeholder (r : ARow) (c : Cat)
    (hne : (jsTrim (stripTabs (r.cell c))).length ≠ 0)
    (hfail : parseCategoryCellCore (jsTrim (stripTabs (r.cell c))) = none) :
    catGet (mkAssignment r) c = some [zeroMark] ∧
    (mkAssignment r).name = stripTabs r.span2 ∧
    (mkAssignment r).feedback = none ∧
    ∀ c2, c2 ≠ c → catGet (mkAssignment r) c2 = catResult (r.cell c2) := by
  refine ⟨?_, (mkAssignment_name r).1, (mkAssignment_name r).2,
    fun c2 _ => mkAssignment_cat r c2⟩
  rw [mkAssignment_cat]
  unfold catResult
  simp only [if_neg hne]
  unfold parseCategoryCell
  rw [hfail]

/-- Claim C8, witness: the row `wRowFin`, whose KU cell reads
`"finished"` (non-empty, unparsable). -/
theorem claim8_witness :
    catGet (mkAssignment wRowFin) Cat.KU = some [zeroMark] ∧
    (mkAssignment wRowFin).name = stripTabs wRowFin.span2 ∧
    (mkAssignment wRowFin).feedback = none ∧
    catGet (mkAssignment wRowFin) Cat.A = catResult (wRowFin.cell Cat.A) :=
  ⟨(claim8_catch_placeholder wRowFin Cat.KU (by decide) (by decide)).1,
   (claim8_catch_placeholder wRowFin Cat.KU (by decide) (by decide)).2.1,
   (claim8_catch_placeholder wRowFin Cat.KU (by decide) (by decide)).2.2.1,
   (claim8_catch_placeholder wRowFin Cat.KU (by decide) (by decide)).2.2.2
     Cat.A (by decide)⟩

/-! ### Claim C9: weight categories with too few cells are omitted -/

theorem triple_none_of_short (index : Nat) (ws : List String)
    (h : ws.length ≤ index + 2) : triple index ws = none := by
  have h3 : ws.get? (index + 2) = none := List.get?_eq_none.mpr h
  unfold triple
  rw [h3]
  cases ws.get? index <;> cases ws.get? (index + 1) <;> rfl

theorem weightEntry_short (ws : List String) (h : ws.length < 3) :
    weightEntry ws = none := by
  cases ws with
  | nil => rfl
  | cons w0 rest =>
    simp only [weightEntry]
    split
    · exact triple_none_of_short 0 ("0%" :: rest)
        (by simp only [List.length_cons] at h ⊢; omega)
    · exact triple_none_of_short 1 (w0 :: rest)
        (by simp only [List.length_cons] at h ⊢; omega)

theorem wtLookup_pairs (g : Cat → Option WEntry) :
    ∀ (ks : List Cat) (c : Cat), c ∉ ks →
      wtLookup (ks.filterMap (fun k => (g k).map (fun e => (k, e)))) c = none
  | [], _, _ => rfl
  | k :: ks, c, h => by
    have hck : ¬k = c := fun e => h (e ▸ List.mem_cons_self k ks)
    have hrest := wtLookup_pairs g ks c (fun m => h (List.mem_cons_of_mem _ m))
    rw [List.filterMap_cons]
    cases hgk : g k with
    | none => simpa [hgk] using hrest
    | some e => simp [hgk, wtLookup, hck, hrest]

theorem wtLookup_pairs_mem (g : Cat → Option WEntry) :
    ∀ (ks : List Cat) (c : Cat), ks.Nodup → c ∈ ks →
      wtLookup (ks.filterMap (fun k => (g k).map (fun e => (k, e)))) c = g c
  | [], c, _, hmem => absurd hmem (List.not_mem_nil c)
  | k :: ks, c, hnd, hmem => by
    rw [List.filterMap_cons]
    rcases List.mem_cons.mp hmem with rfl | hmem2
    · have hnotin : c ∉ ks := (List.nodup_cons.mp hnd).1
      cases hgk : g c with
      | none => simpa [hgk] using wtLookup_pairs g ks c hnotin
      | some e => simp [hgk, wtLookup]
    · have hne : ¬k = c := fun e => (List.nodup_cons.mp hnd).1 (e ▸ hmem2)
      have hrec := wtLookup_pairs_mem g ks c (List.nodup_cons.mp hnd).2 hmem2
      cases hgk : g k with
      | none => simpa [hgk] using hrec
      | some e => simp [hgk, wtLookup, hne, hrec]

/-- The weight table looks up to exactly the per-category parse. -/
theorem wtLookup_weightTable (cells : Cat → List String) (c : Cat) :
    wtLookup (weightTable cells) c = weightEntry (cells c) := by
  simpa [weightTable] using
    wtLookup_pairs_mem (fun k => weightEntry (cells k)) catList c
      (by decide) (by cases c <;> decide)

/-- Claim C9: a category whose collected weight-cell values number
fewer than 3 never raises — its key is simply absent from the weight
table — and every category's entry is still determined by its own
cells. -/
theorem claim9_short_weights (cells : Cat → List String) (c : Cat)
    (h : (cells c).length < 3) :
    wtLookup (weightTable cells) c = none ∧
    ∀ c2, wtLookup (weightTable cells) c2 = weightEntry (cells c2) :=
  ⟨(wtLookup_weightTable cells c).trans (weightEntry_short _ h),
   fun c2 => wtLookup_weightTable cells c2⟩

/-- Claim C9, witness: `wCells9` gives KU two cell values (absent from
the table) while A's full row still parses. -/
theorem claim9_witness :
    wtLookup (weightTable wCells9) Cat.KU = none ∧
    wtLookup (weightTable wCells9) Cat.A = weightEntry (wCells9 Cat.A) :=
  ⟨(claim9_short_weights wCells9 Cat.KU (by decide)).1,
   (claim9_short_weights wCells9 Cat.KU (by decide)).2 Cat.A⟩

/-! ### Claim C4: courses without a detail link -/

/-- Claim C4 (code bug in getCourses.ts): for a course extracted with
no detail-page reference, getCourses.ts still issues a detail request,
to the URL ending in the coerced string `"undefined"` — whereas the
`part_000` handler (and the spec) skip it, issuing no request and
leaving its `assignments`/`weight_table` empty. -/
theorem claim4_missing_link_requests :
    wCourse4.link = none ∧ wCourse4.assignments = [] ∧ wCourse4.weight_table = [] ∧
    detailRequests [wCourse4] = [studentsBase ++ "undefined"] ∧
    detailRequestsSkip [wCourse4] = [] ∧
    detailPhaseSkip emptyFetch [wCourse4] = some [wCourse4] := by decide

end TeachAssist
